import Mathlib

/-!
Verification of the fuzzy duplicate-client detection and fuzzy client search
subsystem of the encinitas-street-reach repository.

The scoring engine (`lib/utils/duplicate-detection`) is imported by
`src/components/ClientSearch.tsx` and `src/components/IntakeForm.tsx` but its
source file is not present under `src/`; its behaviour is modelled from the
specification (sections 4.1 to 4.6 of spec.md).  The orchestration that IS
present under `src/` — the search effect of `ClientSearch.tsx` and the
debounced duplicate-check effect of `IntakeForm.tsx` — is embedded directly
from that code.

Scores are modelled as rationals (`ℚ`), dates as ISO strings compared for
exact equality (the repository stores dates as `YYYY-MM-DD` strings).
-/

namespace DuplicateDetection

/-- Collapse every run of two or more spaces to a single space. -/
def squeezeSpaces : List Char → List Char
  | [] => []
  | [a] => [a]
  | a :: b :: rest =>
      if a == ' ' && b == ' ' then squeezeSpaces (b :: rest)
      else a :: squeezeSpaces (b :: rest)

/-- Remove leading and trailing spaces. -/
def trimSpaces (l : List Char) : List Char :=
  ((l.dropWhile (fun c => c == ' ')).reverse.dropWhile (fun c => c == ' ')).reverse

/-- Modelled from the spec: Name Normalizer, section 4.1 (the source file
`lib/utils/duplicate-detection` is absent from `src/`).  Lowercases, removes
periods, commas and apostrophes, treats hyphens as word separators, strips
leading/trailing whitespace and collapses internal whitespace runs to a
single space. -/
def normalize (s : String) : String :=
  let lowered := (s.data.map Char.toLower).filter
    (fun c => !(c == '.' || c == ',' || c == Char.ofNat 39))
  let spaced := lowered.map (fun c => if c == '-' || c.isWhitespace then ' ' else c)
  String.mk (trimSpaces (squeezeSpaces spaced))

/-- All contiguous windows of length 3 of a character list. -/
def windows3 : List Char → List (List Char)
  | a :: b :: c :: rest => [a, b, c] :: windows3 (b :: c :: rest)
  | _ => []

/-- Modelled from the spec: the boundary marker used for trigram padding,
"a character guaranteed absent from normal input" (section 4.2). -/
def boundaryChar : Char := Char.ofNat 0

/-- A normalized string padded with one leading and one trailing boundary
marker (section 4.2). -/
def padded (s : String) : List Char := boundaryChar :: s.data ++ [boundaryChar]

/-- Modelled from the spec: the set of all contiguous 3-character substrings
of the padded string (section 4.2). -/
def trigrams (s : String) : Finset (List Char) := (windows3 (padded s)).toFinset

/-- Modelled from the spec: Trigram Similarity Scorer, section 4.2.  Jaccard
coefficient of the two trigram sets; defined as 0 when both sets are empty,
so no division by zero ever occurs. -/
def similarity (a b : String) : ℚ :=
  let ta := trigrams a
  let tb := trigrams b
  if (ta ∪ tb).card = 0 then 0
  else ((ta ∩ tb).card : ℚ) / ((ta ∪ tb).card : ℚ)

/-- A stored client record (spec section 3, `PersonRecord`; matches the
`Person` row shape selected in `ClientSearch.tsx`).  `date_of_birth` is
`none` when absent or malformed (section 4.4 treats a malformed stored DOB
as absent). -/
structure PersonRecord where
  id : String
  client_id : String
  first_name : String
  last_name : String
  nickname : Option String
  date_of_birth : Option String
deriving DecidableEq

/-- Which field produced the dominant score (spec section 3). -/
inductive MatchedField where
  | legalName
  | nickname
  | clientId
deriving DecidableEq

/-- A scored result (spec section 3, `MatchCandidate`). -/
structure MatchCandidate where
  person : PersonRecord
  score : ℚ
  matched_on : MatchedField
deriving DecidableEq

/-- The input to a duplicate check (spec section 3, `MatchQuery`). -/
structure MatchQuery where
  first_name : String
  last_name : String
  date_of_birth : Option String
deriving DecidableEq

/-- Modelled from the spec: DOB match boost constant, default 0.25
(section 6 configuration surface). -/
def dobBoost : ℚ := 1/4

/-- Modelled from the spec: DOB mismatch penalty constant, default 0.15
(section 6 configuration surface). -/
def dobPenalty : ℚ := 3/20

/-- Modelled from the spec: duplicate threshold, default 0.35
(section 6 configuration surface). -/
def duplicateThreshold : ℚ := 7/20

/-- Modelled from the spec: Date-of-Birth Corroborator, section 4.4.
Absent query DOB leaves the base score unchanged; an absent (or malformed,
treated as absent) candidate DOB likewise; exact equality boosts by
`dobBoost` capped at 1; a mismatch subtracts `dobPenalty` floored at 0.
Total function: it never raises. -/
def adjust (base : ℚ) (queryDob candidateDob : Option String) : ℚ :=
  match queryDob, candidateDob with
  | none, _ => base
  | some _, none => base
  | some q, some c =>
      if q = c then min 1 (base + dobBoost) else max 0 (base - dobPenalty)

/-- Modelled from the spec: Alias Resolver, section 4.3.  Maximum of the
query-full-name vs legal-full-name similarity and, when a non-empty nickname
is stored, the query-vs-nickname and query-first-name-vs-nickname
similarities, tagged with the field that produced the maximum. -/
def bestNameSimilarity (queryFirst queryLast : String) (c : PersonRecord) :
    ℚ × MatchedField :=
  let qFull := normalize (queryFirst ++ " " ++ queryLast)
  let legal := similarity qFull (normalize (c.first_name ++ " " ++ c.last_name))
  match c.nickname with
  | none => (legal, MatchedField.legalName)
  | some nick =>
      if nick = "" then (legal, MatchedField.legalName)
      else
        let nickSim := max (similarity qFull (normalize nick))
          (similarity (normalize queryFirst) (normalize nick))
        if legal < nickSim then (nickSim, MatchedField.nickname)
        else (legal, MatchedField.legalName)

/-- The final duplicate-check score of one candidate: Alias-Resolver
similarity followed by DOB-Corroborator adjustment (spec section 4.5). -/
def dupCandidate (q : MatchQuery) (p : PersonRecord) : MatchCandidate :=
  let (base, field) := bestNameSimilarity q.first_name q.last_name p
  { person := p
    score := adjust base q.date_of_birth p.date_of_birth
    matched_on := field }

/-- Lexicographic at-most comparison of character lists, used for the
`client_id` tie-break. -/
def strLeB : List Char → List Char → Bool
  | [], _ => true
  | _ :: _, [] => false
  | a :: as, b :: bs =>
      if a < b then true else if b < a then false else strLeB as bs

/-- The ranking comparator: descending by score, ties broken by candidate
`client_id` ascending (spec section 4.5). -/
def candLE (a b : MatchCandidate) : Bool :=
  decide (b.score < a.score) ||
    (decide (a.score = b.score) && strLeB a.person.client_id.data b.person.client_id.data)

/-- Modelled from the spec: duplicate-mode Match Ranker, section 4.5.
Score every candidate, keep those at or above the duplicate threshold, sort
descending by score with ties broken by `client_id` ascending.  A pure
function of its inputs: the ordering is deterministic. -/
def rankDuplicates (q : MatchQuery) (candidates : List PersonRecord) :
    List MatchCandidate :=
  ((candidates.map (dupCandidate q)).filter
    (fun mc => decide (duplicateThreshold ≤ mc.score))).mergeSort candLE

/-- Modelled from the spec: live-search scoring, section 4.5.  Maximum
similarity across legal name, nickname and `client_id`; an exact or prefix
match on `client_id` scores 1. -/
def searchCandidate (term : String) (p : PersonRecord) : MatchCandidate :=
  let t := normalize term
  let legal := similarity t (normalize (p.first_name ++ " " ++ p.last_name))
  let nickSim := match p.nickname with
    | some nick => if nick = "" then 0 else similarity t (normalize nick)
    | none => 0
  let cid := normalize p.client_id
  let cidSim := if t ≠ "" ∧ t.data.isPrefixOf cid.data then 1 else similarity t cid
  if legal < nickSim ∨ legal < cidSim then
    (if nickSim < cidSim then
      { person := p, score := cidSim, matched_on := MatchedField.clientId }
     else
      { person := p, score := nickSim, matched_on := MatchedField.nickname })
  else { person := p, score := legal, matched_on := MatchedField.legalName }

/-- Modelled from the spec: search-mode Match Ranker, section 4.5.  No
threshold filter; every candidate is ranked; same comparator. -/
def rankSearch (term : String) (candidates : List PersonRecord) :
    List MatchCandidate :=
  (candidates.map (searchCandidate term)).mergeSort candLE

/-- Modelled from the spec: `fuzzySearchPersons(term, corpus)` (section 6),
as consumed by `ClientSearch.tsx`, which assigns its result to a person
list. -/
def fuzzySearchPersons (term : String) (persons : List PersonRecord) :
    List PersonRecord :=
  (rankSearch term persons).map (fun mc => mc.person)

/-- The error taxonomy of spec section 7 that is reachable from a pure
scoring call. -/
inductive MatchError where
  | invalidInput
deriving DecidableEq

/-- The result shape of `checkForDuplicates` (spec section 6), with the field
names used by `IntakeForm.tsx` (`hasPotentialDuplicates`, `similarPersons`). -/
structure DupResult where
  similarPersons : List MatchCandidate
  hasPotentialDuplicates : Bool
deriving DecidableEq

/-- Modelled from the spec: Duplicate-Check Service, section 4.6.  Fails fast
with `InvalidInputError` when either name is empty after normalization;
otherwise returns the ranked list plus `hasPotentialDuplicates`, true iff the
list is non-empty. -/
def checkForDuplicates (firstName lastName : String)
    (dateOfBirth : Option String) (corpus : List PersonRecord) :
    Except MatchError DupResult :=
  if normalize firstName = "" ∨ normalize lastName = "" then
    Except.error MatchError.invalidInput
  else
    let ranked := rankDuplicates ⟨firstName, lastName, dateOfBirth⟩ corpus
    Except.ok ⟨ranked, !ranked.isEmpty⟩

/-- A search term is blank when it is empty or consists only of whitespace —
the JavaScript condition `!searchTerm || searchTerm.trim() === ''` of
`ClientSearch.tsx` line 62. -/
def isBlank (s : String) : Bool := s.data.all Char.isWhitespace

/-- The visible state produced by one run of the `ClientSearch.tsx` filter
effect: whether `fuzzySearchPersons` was invoked, and the list stored into
`filteredPersons`. -/
structure SearchView where
  didScore : Bool
  displayed : List PersonRecord
deriving DecidableEq

/-- Embedded from `src/components/ClientSearch.tsx` lines 62-70: when the
search term is empty or whitespace-only, the first 20 entries of the base
list are displayed without calling `fuzzySearchPersons`; otherwise the fuzzy
result is computed and truncated to 20. -/
def clientSearchEffect (searchTerm : String) (baseList : List PersonRecord) :
    SearchView :=
  if isBlank searchTerm then ⟨false, baseList.take 20⟩
  else ⟨true, (fuzzySearchPersons searchTerm baseList).take 20⟩

/-- Embedded from `src/components/IntakeForm.tsx` lines 60-71: the debounced
effect body runs `checkForDuplicates` only when both names are truthy and
longer than 2 characters; otherwise the stored `similarPersons` state is left
untouched.  The returned flag records whether a check was invoked. -/
def checkDuplicatesEffect (firstName lastName : String)
    (dateOfBirth : Option String) (corpus : List PersonRecord)
    (current : List MatchCandidate) : Bool × List MatchCandidate :=
  if firstName ≠ "" ∧ lastName ≠ "" ∧
      2 < firstName.length ∧ 2 < lastName.length then
    match checkForDuplicates firstName lastName dateOfBirth corpus with
    | Except.ok r =>
        (true, if r.hasPotentialDuplicates then r.similarPersons else [])
    | Except.error _ => (true, current)
  else (false, current)

/-- Embedded from `src/components/IntakeForm.tsx` lines 73-74: each change of
the watched fields schedules the check `delay` ms later and the effect
cleanup clears the previous timer, so a scheduled check fires only if the
next change comes strictly after its due time.  Input: strictly increasing
change times; output: the times at which the check actually runs. -/
def debounceFires (delay : Nat) : List Nat → List Nat
  | [] => []
  | [t] => [t + delay]
  | t :: t2 :: rest =>
      if t + delay < t2 then (t + delay) :: debounceFires delay (t2 :: rest)
      else debounceFires delay (t2 :: rest)

/-- Embedded from `src/components/ClientSearch.tsx` lines 56-71: the filter
effect has no timer — it runs synchronously at every change of the search
term, so a query is issued at every change time. -/
def liveSearchFires (changes : List Nat) : List Nat := changes

/-- The ordering the rankers guarantee on their output: strictly greater
score first; equal scores ordered by `client_id` ascending. -/
def rankedOrder (a b : MatchCandidate) : Prop :=
  b.score < a.score ∨
    (a.score = b.score ∧
      strLeB a.person.client_id.data b.person.client_id.data = true)

theorem strLeB_total : ∀ a b : List Char, (strLeB a b || strLeB b a) = true
  | [], _ => by simp [strLeB]
  | _ :: _, [] => by simp [strLeB]
  | a :: as, b :: bs => by
      by_cases h1 : a < b
      · simp [strLeB, h1]
      · by_cases h2 : b < a
        · simp [strLeB, h1, h2]
        · have ih := strLeB_total as bs
          simp [strLeB, h1, h2, ih]

theorem strLeB_trans : ∀ a b c : List Char,
    strLeB a b = true → strLeB b c = true → strLeB a c = true
  | [], _, _, _, _ => by simp [strLeB]
  | _ :: _, [], _, h1, _ => by simp [strLeB] at h1
  | _ :: _, _ :: _, [], _, h2 => by simp [strLeB] at h2
  | a :: as, b :: bs, c :: cs, h1, h2 => by
      by_cases hab : a < b
      · by_cases hbc : b < c
        · simp [strLeB, lt_trans hab hbc]
        · by_cases hcb : c < b
          · simp [strLeB, hbc, hcb] at h2
          · have hbc' : b = c := le_antisymm (not_lt.mp hcb) (not_lt.mp hbc)
            simp [strLeB, hbc' ▸ hab]
      · by_cases hba : b < a
        · simp [strLeB, hab, hba] at h1
        · have hab' : a = b := le_antisymm (not_lt.mp hba) (not_lt.mp hab)
          by_cases hbc : b < c
          · simp [strLeB, hab' ▸ hbc]
          · by_cases hcb : c < b
            · simp [strLeB, hbc, hcb] at h2
            · have hbc' : b = c := le_antisymm (not_lt.mp hcb) (not_lt.mp hbc)
              have hac : ¬ a < c := hab' ▸ hbc' ▸ hbc
              have hca : ¬ c < a := hab' ▸ hbc' ▸ hcb
              simp [strLeB, hab, hba] at h1
              simp [strLeB, hbc, hcb] at h2
              simp [strLeB, hac, hca, strLeB_trans as bs cs h1 h2]

theorem candLE_iff (a b : MatchCandidate) :
    candLE a b = true ↔ rankedOrder a b := by
  simp [candLE, rankedOrder, Bool.or_eq_true, Bool.and_eq_true,
    decide_eq_true_iff]

theorem rankedOrder_trans (a b c : MatchCandidate)
    (h1 : rankedOrder a b) (h2 : rankedOrder b c) : rankedOrder a c := by
  rcases h1 with h1 | ⟨e1, s1⟩ <;> rcases h2 with h2 | ⟨e2, s2⟩
  · exact Or.inl (lt_trans h2 h1)
  · exact Or.inl (e2 ▸ h1)
  · exact Or.inl (e1 ▸ h2)
  · exact Or.inr ⟨e1.trans e2, strLeB_trans _ _ _ s1 s2⟩

theorem rankedOrder_total (a b : MatchCandidate) :
    rankedOrder a b ∨ rankedOrder b a := by
  rcases lt_trichotomy a.score b.score with h | h | h
  · exact Or.inr (Or.inl h)
  · rcases Bool.or_eq_true_iff.mp
        (strLeB_total a.person.client_id.data b.person.client_id.data) with
      hs | hs
    · exact Or.inl (Or.inr ⟨h, hs⟩)
    · exact Or.inr (Or.inr ⟨h.symm, hs⟩)
  · exact Or.inl (Or.inl h)

theorem candLE_trans (a b c : MatchCandidate) :
    candLE a b → candLE b c → candLE a c := by
  intro h1 h2
  rw [candLE_iff] at h1 h2 ⊢
  exact rankedOrder_trans a b c h1 h2

theorem candLE_total (a b : MatchCandidate) :
    (candLE a b || candLE b a) = true := by
  rw [Bool.or_eq_true, candLE_iff, candLE_iff]
  exact rankedOrder_total a b

theorem pairwise_mergeSort_rankedOrder (l : List MatchCandidate) :
    (l.mergeSort candLE).Pairwise rankedOrder :=
  (List.sorted_mergeSort candLE_trans candLE_total l).imp
    (fun h => (candLE_iff _ _).mp h)

theorem trigrams_eq_empty_iff (s : String) : trigrams s = ∅ ↔ s = "" := by
  obtain ⟨l⟩ := s
  cases l with
  | nil =>
      constructor
      · intro _; rfl
      · intro _; decide
  | cons c cs =>
      constructor
      · intro h
        exfalso
        cases cs with
        | nil => simp [trigrams, padded, windows3] at h
        | cons d ds => simp [trigrams, padded, windows3] at h
      · intro h
        exfalso
        have := congrArg String.data h
        simp at this

theorem debounceFires_spec (delay : Nat) :
    ∀ ts : List Nat, ts.Pairwise (· < ·) → ∀ t ∈ debounceFires delay ts,
      ∃ c ∈ ts, t = c + delay ∧ ∀ c2 ∈ ts, c < c2 → c + delay < c2
  | [], _, t, ht => by simp [debounceFires] at ht
  | [t0], _, t, ht => by
      simp [debounceFires] at ht
      subst ht
      refine ⟨t0, by simp, rfl, ?_⟩
      intro c2 hc2 hlt
      simp at hc2
      omega
  | t0 :: t1 :: rest, hp, t, ht => by
      have hp1 : (t1 :: rest).Pairwise (· < ·) := hp.of_cons
      have h01 : ∀ x ∈ t1 :: rest, t0 < x := (List.pairwise_cons.mp hp).1
      simp only [debounceFires] at ht
      by_cases h : t0 + delay < t1
      · rw [if_pos h] at ht
        rcases List.mem_cons.mp ht with h1 | h1
        · subst h1
          refine ⟨t0, List.mem_cons_self _ _, rfl, ?_⟩
          intro c2 hc2 hlt
          rcases List.mem_cons.mp hc2 with rfl | hc2
          · omega
          · have ht1 : t1 ≤ c2 := by
              rcases List.mem_cons.mp hc2 with rfl | hh
              · exact le_refl _
              · exact le_of_lt ((List.pairwise_cons.mp hp1).1 c2 hh)
            omega
        · obtain ⟨c, hc, rfl, hall⟩ :=
            debounceFires_spec delay (t1 :: rest) hp1 t h1
          refine ⟨c, List.mem_cons_of_mem _ hc, rfl, ?_⟩
          intro c2 hc2 hlt
          rcases List.mem_cons.mp hc2 with rfl | hc2
          · exact absurd hlt (not_lt.mpr (le_of_lt (h01 c hc)))
          · exact hall c2 hc2 hlt
      · rw [if_neg h] at ht
        obtain ⟨c, hc, rfl, hall⟩ :=
          debounceFires_spec delay (t1 :: rest) hp1 t ht
        refine ⟨c, List.mem_cons_of_mem _ hc, rfl, ?_⟩
        intro c2 hc2 hlt
        rcases List.mem_cons.mp hc2 with rfl | hc2
        · exact absurd hlt (not_lt.mpr (le_of_lt (h01 c hc)))
        · exact hall c2 hc2 hlt

/-- C1: for every pair of normalized strings, `similarity` is the Jaccard
coefficient of the two trigram sets (each trigram set taken from the string
padded with one leading and one trailing boundary marker); a string's
trigram set is empty exactly when the string is empty, and when both inputs
are empty the similarity is 0 with no division by zero (the denominator is
provably non-zero whenever the division form is used). -/
theorem c1_similarity_is_trigram_jaccard (a b : String) :
    (trigrams a ∪ trigrams b ≠ ∅ →
      similarity a b =
        ((trigrams a ∩ trigrams b).card : ℚ) /
          ((trigrams a ∪ trigrams b).card : ℚ) ∧
      ((trigrams a ∪ trigrams b).card : ℚ) ≠ 0) ∧
    (trigrams a = ∅ ↔ a = "") ∧
    (a = "" → b = "" → similarity a b = 0) := by
  refine ⟨?_, trigrams_eq_empty_iff a, ?_⟩
  · intro h
    have hc : (trigrams a ∪ trigrams b).card ≠ 0 := by
      simpa [Finset.card_eq_zero] using h
    refine ⟨?_, by exact_mod_cast hc⟩
    simp only [similarity]
    rw [if_neg hc]
  · rintro rfl rfl
    have h0 : trigrams ("") = ∅ := by decide
    simp [similarity, h0]

/-- Witness for C1 at the concrete pair ("ab", ""). -/
theorem c1_similarity_is_trigram_jaccard_witness :
    trigrams ("ab") ∪ trigrams ("") ≠ ∅ ∧
    similarity ("ab") ("") =
      ((trigrams ("ab") ∩ trigrams ("")).card : ℚ) /
        ((trigrams ("ab") ∪ trigrams ("")).card : ℚ) :=
  ⟨by decide,
    ((c1_similarity_is_trigram_jaccard ("ab") ("")).1 (by decide)).1⟩

/-- C2: the DOB corroborator returns the base score unchanged when the query
DOB is absent, `min 1 (base + 0.25)` when both DOBs are present and equal,
and `max 0 (base - 0.15)` (never below 0) when both are present and differ.
`adjust` is a total function, so it never raises. -/
theorem c2_dob_corroborator_adjust (base : ℚ) (d e : String)
    (cand : Option String) :
    adjust base none cand = base ∧
    adjust base (some d) (some d) = min 1 (base + 1/4) ∧
    (d ≠ e →
      adjust base (some d) (some e) = max 0 (base - 3/20) ∧
      0 ≤ adjust base (some d) (some e)) := by
  refine ⟨rfl, ?_, ?_⟩
  · simp [adjust, dobBoost]
  · intro hne
    constructor
    · simp [adjust, dobPenalty, hne]
    · simp [adjust, dobPenalty, hne]

/-- Witness for C2 at base 1/2 with two distinct concrete dates. -/
theorem c2_dob_corroborator_adjust_witness :
    ("1990-01-01" : String) ≠ "1991-02-02" ∧
    adjust (1/2) (some ("1990-01-01")) (some ("1991-02-02")) =
      max 0 (1/2 - 3/20) :=
  ⟨by decide,
    ((c2_dob_corroborator_adjust (1/2) ("1990-01-01") ("1991-02-02")
      none).2.2 (by decide)).1⟩

/-- C3: a candidate appears in the duplicate-check ranking exactly when its
final score — Alias-Resolver similarity followed by DOB corroboration — is
at least the duplicate threshold (0.35). -/
theorem c3_duplicate_inclusion_iff_threshold (q : MatchQuery)
    (candidates : List PersonRecord) (mc : MatchCandidate) :
    mc ∈ rankDuplicates q candidates ↔
      (∃ p ∈ candidates, dupCandidate q p = mc) ∧
        duplicateThreshold ≤ mc.score := by
  rw [rankDuplicates, List.mem_mergeSort, List.mem_filter, List.mem_map]
  simp [decide_eq_true_iff]

/-- C4: both the duplicate-check ranking and the live-search ranking are
sorted descending by score with ties broken by candidate `client_id`
ascending; both rankers are pure functions, so the ordering is a
deterministic function of the inputs. -/
theorem c4_rankings_sorted_desc_with_tiebreak (q : MatchQuery)
    (term : String) (candidates : List PersonRecord) :
    (rankDuplicates q candidates).Pairwise rankedOrder ∧
    (rankSearch term candidates).Pairwise rankedOrder :=
  ⟨pairwise_mergeSort_rankedOrder _, pairwise_mergeSort_rankedOrder _⟩

/-- C5: whenever a duplicate check succeeds, the returned
`hasPotentialDuplicates` flag is true exactly when the returned
`similarPersons` list is non-empty. -/
theorem c5_has_potential_duplicates_iff_nonempty (fn ln : String)
    (dob : Option String) (corpus : List PersonRecord) (r : DupResult)
    (h : checkForDuplicates fn ln dob corpus = Except.ok r) :
    r.hasPotentialDuplicates = true ↔ r.similarPersons ≠ [] := by
  rw [checkForDuplicates] at h
  split at h
  · exact absurd h (by simp)
  · injection h with h
    subst h
    simp [List.isEmpty_iff]

/-- Witness for C5 on an empty corpus. -/
theorem c5_has_potential_duplicates_iff_nonempty_witness :
    checkForDuplicates ("abc") ("def") none [] = Except.ok ⟨[], false⟩ ∧
    ((false : Bool) = true ↔ ([] : List MatchCandidate) ≠ []) := by
  have h : checkForDuplicates ("abc") ("def") none [] = Except.ok ⟨[], false⟩ := by
    rw [checkForDuplicates, if_neg (by decide)]
    simp [rankDuplicates]
  exact ⟨h,
    c5_has_potential_duplicates_iff_nonempty ("abc") ("def") none []
      ⟨[], false⟩ h⟩

/-- A concrete stored client used in the C6 counterexample. -/
def alice : PersonRecord :=
  ⟨"person-1", "ESR-001", "Alice", "Smith", none, some ("1990-01-01")⟩

/-- C6 counterexample: on a whitespace-only search term the `ClientSearch`
filter effect raises nothing — its result type has no error case — and it
does not leave the display empty: it shows the first 20 entries of the base
list without invoking `fuzzySearchPersons` (`didScore = false`).  This
contradicts the claim that an empty or blank term raises `InvalidInputError`
and is never treated as matching everything. -/
theorem c6_blank_term_counterexample :
    clientSearchEffect ("   ") [alice] =
      ⟨false, [alice]⟩ ∧ (clientSearchEffect ("   ") [alice]).displayed ≠ [] := by
  have h : clientSearchEffect ("   ") [alice] = ⟨false, [alice]⟩ := by
    rw [clientSearchEffect, if_pos (by decide)]
    rfl
  exact ⟨h, by rw [h]; simp⟩

/-- C6 amended: when the search term is empty or whitespace-only the
`ClientSearch` effect performs no fuzzy scoring and displays the first 20
entries of the base list; no error is raised. -/
theorem c6_blank_term_amended (term : String) (baseList : List PersonRecord)
    (h : isBlank term = true) :
    clientSearchEffect term baseList = ⟨false, baseList.take 20⟩ := by
  rw [clientSearchEffect, if_pos h]

/-- Witness for the amended C6 at a concrete blank term. -/
theorem c6_blank_term_amended_witness :
    isBlank ("  ") = true ∧
    clientSearchEffect ("  ") [] = ⟨false, List.take 20 []⟩ :=
  ⟨by decide, c6_blank_term_amended ("  ") [] (by decide)⟩

/-- C8: for a non-blank term the live search ranks every candidate of the
roster (no threshold filter: the ranked list has exactly the roster's
length) and the caller truncates the result to at most 20 displayed
entries. -/
theorem c8_search_ranks_all_and_caller_caps_at_20 (term : String)
    (baseList : List PersonRecord) (h : isBlank term = false) :
    (fuzzySearchPersons term baseList).length = baseList.length ∧
    (clientSearchEffect term baseList).displayed.length ≤ 20 := by
  constructor
  · simp [fuzzySearchPersons, rankSearch]
  · rw [clientSearchEffect, if_neg (by simp [h])]
    exact List.length_take_le 20 _

/-- Witness for C8 at a concrete term and empty roster. -/
theorem c8_search_ranks_all_and_caller_caps_at_20_witness :
    isBlank ("ab") = false ∧
    (fuzzySearchPersons ("ab") []).length = ([] : List PersonRecord).length ∧
    (clientSearchEffect ("ab") []).displayed.length ≤ 20 :=
  ⟨by decide,
    (c8_search_ranks_all_and_caller_caps_at_20 ("ab") [] (by decide)).1,
    (c8_search_ranks_all_and_caller_caps_at_20 ("ab") [] (by decide)).2⟩

/-- C9 counterexample: for keystrokes at 0 ms and 100 ms, a 500 ms-debounced
service would issue exactly one query at 600 ms, but the live-search effect
of `ClientSearch.tsx` issues a query at every change time — it scores the
corpus on every keystroke with no debounce.  (The `setTimeout`/`clearTimeout`
500 ms debounce exists only in the intake form's duplicate check.) -/
theorem c9_live_search_not_debounced_counterexample :
    liveSearchFires [0, 100] = [0, 100] ∧
    debounceFires 500 [0, 100] = [600] ∧
    liveSearchFires [0, 100] ≠ debounceFires 500 [0, 100] :=
  ⟨rfl, by decide, by decide⟩

/-- C9 amended: the intake form's duplicate check (not the live search) is
debounced: every fired check occurs exactly 500 ms after some input change
with no further change arriving within those 500 ms; the live-search effect
issues a query at every change time. -/
theorem c9_debounce_amended (ts : List Nat) (t : Nat)
    (hs : ts.Pairwise (· < ·)) (ht : t ∈ debounceFires 500 ts) :
    liveSearchFires ts = ts ∧
    ∃ c ∈ ts, t = c + 500 ∧ ∀ c2 ∈ ts, c < c2 → c + 500 < c2 :=
  ⟨rfl, debounceFires_spec 500 ts hs t ht⟩

/-- Witness for the amended C9 at change times 0 and 600. -/
theorem c9_debounce_amended_witness :
    ([0, 600] : List Nat).Pairwise (· < ·) ∧
    (500 : Nat) ∈ debounceFires 500 [0, 600] ∧
    (liveSearchFires [0, 600] = [0, 600] ∧
      ∃ c ∈ ([0, 600] : List Nat), (500 : Nat) = c + 500 ∧
        ∀ c2 ∈ ([0, 600] : List Nat), c < c2 → c + 500 < c2) :=
  ⟨by decide, by decide,
    c9_debounce_amended [0, 600] 500 (by decide) (by decide)⟩

/-- C10: the intake form invokes the duplicate check exactly when both names
are longer than 2 characters; when either name has length at most 2, no
check runs, the stored `similarPersons` list is left unchanged, and hence no
duplicate warning can be produced for that input. -/
theorem c10_intake_gate_on_name_lengths (fn ln : String)
    (dob : Option String) (corpus : List PersonRecord)
    (current : List MatchCandidate) :
    ((checkDuplicatesEffect fn ln dob corpus current).1 = true ↔
      2 < fn.length ∧ 2 < ln.length) ∧
    (fn.length ≤ 2 ∨ ln.length ≤ 2 →
      checkDuplicatesEffect fn ln dob corpus current = (false, current)) := by
  have hiff : (fn ≠ "" ∧ ln ≠ "" ∧ 2 < fn.length ∧ 2 < ln.length) ↔
      (2 < fn.length ∧ 2 < ln.length) := by
    constructor
    · rintro ⟨-, -, h1, h2⟩
      exact ⟨h1, h2⟩
    · rintro ⟨h1, h2⟩
      refine ⟨?_, ?_, h1, h2⟩
      · intro e
        subst e
        simp at h1
      · intro e
        subst e
        simp at h2
  by_cases hc : fn ≠ "" ∧ ln ≠ "" ∧ 2 < fn.length ∧ 2 < ln.length
  · have hl := hiff.mp hc
    rw [checkDuplicatesEffect, if_pos hc]
    constructor
    · refine iff_of_true ?_ hl
      rcases hE : checkForDuplicates fn ln dob corpus with e | r <;> simp [hE]
    · intro habs
      rcases habs with h | h
      · omega
      · omega
  · rw [checkDuplicatesEffect, if_neg hc]
    constructor
    · exact iff_of_false (by simp) (fun hlens => hc (hiff.mpr hlens))
    · intro _
      rfl

/-- Witness for C10: a 2-character first name leaves the state untouched. -/
theorem c10_intake_gate_on_name_lengths_witness :
    (("ab" : String).length ≤ 2 ∨ ("Smith" : String).length ≤ 2) ∧
    checkDuplicatesEffect ("ab") ("Smith") none [] [] = (false, []) :=
  ⟨by decide,
    (c10_intake_gate_on_name_lengths ("ab") ("Smith") none [] []).2
      (by decide)⟩

end DuplicateDetection
